import Mathlib

/-!
Verification development for the sign-meeting video-calling application.

Shallow embedding of the parts of the code base that the specification
talks about:

* `SocketHandler` — the Socket.IO relay server (backend/socket/socketHandler.js):
  the `connectedUsers` registry, room membership, the `join_room` /
  `leave_room` / `disconnect` handlers and the WebRTC signal forwarding
  handlers.
* `WebRTCCtx` — the browser-side peer-connection management
  (frontend/src/contexts/WebRTCContext.jsx): the participants effect,
  `handleAnswer`, `handleNegotiationNeeded`, `closePeerConnection` and the
  `onconnectionstatechange` hook.
* `Translation` — backend/services/translationService.js (`translateText`,
  `mockTranslation`), with the external provider calls abstracted as
  oracle parameters.
* `SignAvatar` — the gesture mapping of SignLanguageAvatar.jsx
  (`SIGN_GESTURES`, `processTextToSigns`).
* `RoomModel` — backend/models/Room.js (`addParticipant`,
  `removeParticipant`).
* `UserModel` — the User model's `toJSON` (password stripping).

JavaScript `Map` objects and plain objects used as string-keyed maps are
modelled as association lists (`List (String × α)`); `Map.set` / keyed
object update is `alSet`, `Map.get` / property read is `List.lookup`.
-/

/-- JS `map.set k v` / `obj[k] = v` on an association list: replaces the
first binding of `k` if present, otherwise appends a fresh binding. -/
def alSet {α : Type} : List (String × α) → String → α → List (String × α)
  | [], k, v => [(k, v)]
  | (k', v') :: rest, k, v =>
    if k' = k then (k, v) :: rest else (k', v') :: alSet rest k v

namespace UserModel

/-!
Embedding of backend/models/User.js.  A persisted user document; its
serialization `toObject` is modelled as an association list of field names
to (stringified) values, which is all `toJSON` needs: `toJSON` calls
`toObject` and then does `delete userObject.password`.
-/

structure UserDoc where
  username : String
  email : String
  password : String
  prefLanguage : String
  prefDeafMode : Bool
  prefAvatarStyle : String
  profileFirstName : Option String
  profileLastName : Option String
  isOnline : Bool
  lastSeen : Nat

/-- Mongoose `document.toObject()`: every schema field appears, including
`password`.  Non-string values are stringified, which is irrelevant to the
key-set property being verified. -/
def toObject (u : UserDoc) : List (String × String) :=
  [ ("username", u.username),
    ("email", u.email),
    ("password", u.password),
    ("prefLanguage", u.prefLanguage),
    ("prefDeafMode", toString u.prefDeafMode),
    ("prefAvatarStyle", u.prefAvatarStyle),
    ("profileFirstName", (u.profileFirstName).getD ""),
    ("profileLastName", (u.profileLastName).getD ""),
    ("isOnline", toString u.isOnline),
    ("lastSeen", toString u.lastSeen) ]

/-- JS `delete obj[k]` on an object whose keys are unique: drop the binding. -/
def deleteField (l : List (String × String)) (k : String) : List (String × String) :=
  l.filter (fun kv => kv.1 ≠ k)

/-- userSchema.methods.toJSON: `const userObject = this.toObject();
delete userObject.password; return userObject;` -/
def toJSON (u : UserDoc) : List (String × String) :=
  deleteField (toObject u) "password"

end UserModel

namespace RoomModel

/-!
Embedding of backend/models/Room.js participant bookkeeping.  Timestamps
(`joinedAt` / `leftAt`) are modelled as abstract `Nat` clock values passed
in by the caller in place of `new Date()`.
-/

structure Participant where
  user : String
  joinedAt : Nat
  leftAt : Option Nat
  isActive : Bool

structure RoomDoc where
  participants : List Participant

/-- `this.participants.find(p => p.user.toString() === userId.toString() && p.isActive)` -/
def findActive (l : List Participant) (userId : String) : Option Participant :=
  l.find? (fun p => p.user == userId && p.isActive)

/-- roomSchema.methods.addParticipant (the `save()` is persistence, not
modelled): push a fresh active entry only when no active entry exists. -/
def addParticipant (r : RoomDoc) (userId : String) (now : Nat) : RoomDoc :=
  match findActive r.participants userId with
  | some _ => r
  | none =>
    { participants :=
        r.participants ++ [{ user := userId, joinedAt := now, leftAt := none, isActive := true }] }

/-- In-place mutation of the first matching active entry, as performed by
`removeParticipant` on the array element returned by `find`. -/
def deactivateFirst : List Participant → String → Nat → List Participant
  | [], _, _ => []
  | p :: rest, userId, now =>
    if p.user == userId && p.isActive then
      { p with isActive := false, leftAt := some now } :: rest
    else
      p :: deactivateFirst rest userId now

/-- roomSchema.methods.removeParticipant. -/
def removeParticipant (r : RoomDoc) (userId : String) (now : Nat) : RoomDoc :=
  { participants := deactivateFirst r.participants userId now }

/-- Number of simultaneously active participant entries for `userId`. -/
def activeCount (r : RoomDoc) (userId : String) : Nat :=
  (r.participants.filter (fun p => p.user == userId && p.isActive)).length

inductive RoomOp
  | add (userId : String) (now : Nat)
  | remove (userId : String) (now : Nat)

def applyRoomOp (r : RoomDoc) : RoomOp → RoomDoc
  | .add u n => addParticipant r u n
  | .remove u n => removeParticipant r u n

/-- A new room document starts with an empty participants array. -/
def emptyRoom : RoomDoc := ⟨[]⟩

def runRoomOps (ops : List RoomOp) : RoomDoc := ops.foldl applyRoomOp emptyRoom

end RoomModel

namespace Translation

/-!
Embedding of backend/services/translationService.js.  The network calls to
OpenAI / Google are abstracted as oracle parameters of type
`Except Unit String`: `.ok t` is a successful provider response whose
translated text is `t`, `.error ()` is any thrown error (HTTP failure,
empty completion, ...).  Presence of the `OPENAI_API_KEY` /
`GOOGLE_TRANSLATE_API_KEY` environment variables is a pair of booleans.
-/

/-- A translation result object.  `confidence` is in hundredths (100 is
the JS `1.0`, 90 is `0.9`, 95 is `0.95`, 80 is `0.8`), keeping the
embedding exactly computable. -/
structure TranslationResult where
  text : String
  confidence : Nat
  sourceLanguage : String
  targetLanguage : String
  provider : Option String
  deriving DecidableEq

/-- `mockTranslations` object literal inside `mockTranslation`: target
language code → the full bracketed mock string. -/
def mockTranslations (text : String) : List (String × String) :=
  [ ("ta", "[Tamil translation of: " ++ text ++ "]"),
    ("hi", "[Hindi translation of: " ++ text ++ "]"),
    ("es", "[Spanish translation of: " ++ text ++ "]"),
    ("fr", "[French translation of: " ++ text ++ "]"),
    ("de", "[German translation of: " ++ text ++ "]"),
    ("zh", "[Chinese translation of: " ++ text ++ "]"),
    ("ar", "[Arabic translation of: " ++ text ++ "]") ]

/-- `mockTranslation(text, targetLanguage, sourceLanguage)`. -/
def mockTranslation (text targetLanguage sourceLanguage : String) : TranslationResult :=
  { text := ((mockTranslations text).lookup targetLanguage).getD
      ("[" ++ targetLanguage ++ " translation of: " ++ text ++ "]"),
    confidence := 80,
    sourceLanguage := sourceLanguage,
    targetLanguage := targetLanguage,
    provider := some "mock" }

/-- `translateWithOpenAI`: on a successful call builds the result with
confidence 0.9 and provider 'openai'; a thrown error propagates. -/
def translateWithOpenAI (targetLanguage sourceLanguage : String)
    (call : Except Unit String) : Except Unit TranslationResult :=
  call.map fun t =>
    { text := t, confidence := 90, sourceLanguage := sourceLanguage,
      targetLanguage := targetLanguage, provider := some "openai" }

/-- `translateWithGoogle`: confidence 0.95, provider 'google' (the
`detectedSourceLanguage` refinement is abstracted away). -/
def translateWithGoogle (targetLanguage sourceLanguage : String)
    (call : Except Unit String) : Except Unit TranslationResult :=
  call.map fun t =>
    { text := t, confidence := 95, sourceLanguage := sourceLanguage,
      targetLanguage := targetLanguage, provider := some "google" }

/-- JS `!text || text.trim().length === 0`: the text is empty or contains
only whitespace. -/
def isBlank (text : String) : Bool :=
  text.toList.all Char.isWhitespace

/-- `translateText(text, targetLanguage, sourceLanguage)`.  `none` is the
JS `null` return.  The `try/catch` around the body turns a provider throw
into `mockTranslation`. -/
def translateText (text targetLanguage sourceLanguage : String)
    (hasOpenAIKey hasGoogleKey : Bool)
    (openaiCall googleCall : Except Unit String) : Option TranslationResult :=
  if isBlank text then
    none
  else if sourceLanguage = targetLanguage then
    some { text := text, confidence := 100, sourceLanguage := sourceLanguage,
           targetLanguage := targetLanguage, provider := none }
  else if hasOpenAIKey then
    match translateWithOpenAI targetLanguage sourceLanguage openaiCall with
    | .ok r => some r
    | .error _ => some (mockTranslation text targetLanguage sourceLanguage)
  else if hasGoogleKey then
    match translateWithGoogle targetLanguage sourceLanguage googleCall with
    | .ok r => some r
    | .error _ => some (mockTranslation text targetLanguage sourceLanguage)
  else
    some (mockTranslation text targetLanguage sourceLanguage)

end Translation

namespace SignAvatar

/-!
Embedding of the SignLanguageAvatar component's gesture mapping
(`SIGN_GESTURES` object literal and the gesture-list construction inside
`processTextToSigns`).  The object literal is an association list in
source order; `SIGN_GESTURES[word]` is `List.lookup`.  The animation
timer loop is presentation and not modelled; the verified artefact is the
`gestures` array the loop plays.
-/

def SIGN_GESTURES : List (String × String) :=
  [ ("hello", "👋"), ("hi", "👋"), ("goodbye", "👋"), ("bye", "👋"),
    ("good morning", "🌅"), ("good evening", "🌆"), ("good night", "🌙"),
    ("yes", "👍"), ("no", "👎"), ("please", "🙏"), ("thank you", "🙏"),
    ("thanks", "🙏"), ("sorry", "😔"), ("excuse me", "✋"),
    ("what", "❓"), ("when", "⏰"), ("where", "📍"), ("who", "👤"),
    ("why", "🤔"), ("how", "❓"),
    ("one", "☝️"), ("two", "✌️"), ("three", "🤟"), ("four", "🖖"),
    ("five", "🖐️"),
    ("happy", "😊"), ("sad", "😢"), ("angry", "😠"), ("surprised", "😲"),
    ("confused", "😕"), ("love", "❤️"),
    ("eat", "🍽️"), ("drink", "🥤"), ("sleep", "😴"), ("work", "💼"),
    ("study", "📚"), ("play", "🎮"), ("help", "🆘"), ("stop", "✋"),
    ("go", "➡️"), ("come", "👈"),
    ("mother", "👩"), ("father", "👨"), ("family", "👨‍👩‍👧‍👦"),
    ("friend", "👫"),
    ("default", "🤲") ]

/-- `sub` is a prefix of `l` (character-wise). -/
def listPrefixCheck : List Char → List Char → Bool
  | [], _ => true
  | _ :: _, [] => false
  | a :: as, b :: bs => a == b && listPrefixCheck as bs

/-- `sub` occurs contiguously somewhere in `l`. -/
def listInfixCheck (sub : List Char) : List Char → Bool
  | [] => sub.isEmpty
  | c :: rest => listPrefixCheck sub (c :: rest) || listInfixCheck sub rest

/-- JS `inputText.includes(phrase)` — substring test. -/
def strIncludes (s sub : String) : Bool :=
  listInfixCheck sub.toList s.toList

/-- One iteration of the word loop in `processTextToSigns`: exact-key
lookup, then the first multi-word phrase of the table contained in the
whole input, then the default gesture.  Returns (gesture, recorded word). -/
def gestureFor (inputText word : String) : String × String :=
  match SIGN_GESTURES.lookup word with
  | some g => (g, word)
  | none =>
    match SIGN_GESTURES.find? (fun pg => pg.1.toList.contains ' ' && strIncludes inputText pg.1) with
    | some pg => (pg.2, pg.1)
    | none => ("🤲", word)

/-- Accumulator-style splitter: `acc` holds the reversed characters of the
word currently being read. -/
def splitWordsAux : List Char → List Char → List String
  | [], acc => if acc.isEmpty then [] else [String.mk acc.reverse]
  | c :: rest, acc =>
    if c.isWhitespace then
      if acc.isEmpty then splitWordsAux rest []
      else String.mk acc.reverse :: splitWordsAux rest []
    else
      splitWordsAux rest (c :: acc)

/-- `inputText.split(/\s+/)` for the trimmed strings this component feeds
it: the maximal runs of non-whitespace characters, in order. -/
def splitWords (inputText : String) : List String :=
  splitWordsAux inputText.toList []

/-- The `gestures` array built by `processTextToSigns(inputText)` (the
caller passes `text.toLowerCase().trim()`). -/
def processTextToSigns (inputText : String) : List (String × String) :=
  (splitWords inputText).map (gestureFor inputText)

end SignAvatar

namespace WebRTCCtx

/-!
Embedding of frontend/src/contexts/WebRTCContext.jsx.

An `RTCPeerConnection` is modelled by its signaling state; the effects the
code performs on the browser API and the socket (creating a connection,
creating/sending an offer, applying a remote answer, closing a
connection) are recorded as a list of `PeerAct` actions.
`peerConnectionsRef.current` is an association list keyed by user id.
-/

inductive SignalingState
  | stable
  | haveLocalOffer
  | haveRemoteOffer
  | haveLocalPranswer
  | haveRemotePranswer
  | closed
  deriving DecidableEq

structure Peer where
  signalingState : SignalingState
  deriving DecidableEq

inductive PeerAct
  | createPeer (userId : String)
  | createOffer (userId : String)
  | sendOffer (roomId targetUserId : String)
  | setRemoteAnswer (userId answer : String)
  | closePeer (userId : String)
  | restartIce (userId : String)
  deriving DecidableEq

/-- `createPeerConnection(userId)`: returns the existing connection when
one is present, otherwise builds a fresh `RTCPeerConnection` (whose
signaling state starts 'stable') and stores it in the ref.  The
`catch`/`null` branch (constructor failure) is not modelled. -/
def createPeerConnection (peers : List (String × Peer)) (userId : String) :
    List (String × Peer) × Peer × List PeerAct :=
  match peers.lookup userId with
  | some p => (peers, p, [])
  | none =>
    let p : Peer := { signalingState := .stable }
    (alSet peers userId p, p, [.createPeer userId])

/-- `handleNegotiationNeeded(peerConnection, userId)`: create and send an
offer only from the 'stable' state; `setLocalDescription(offer)` moves the
connection to 'have-local-offer'; the offer is sent only when
`currentRoom` is set. -/
def handleNegotiationNeeded (p : Peer) (currentRoom : Option String)
    (userId : String) : Peer × List PeerAct :=
  if p.signalingState = .stable then
    ({ p with signalingState := .haveLocalOffer },
      [.createOffer userId] ++
        match currentRoom with
        | some rid => [.sendOffer rid userId]
        | none => [])
  else
    (p, [])

/-- `handleAnswer({ answer, fromUserId })`: apply the remote answer via
`setRemoteDescription` only when the connection exists and its signaling
state is 'have-local-offer' (which moves it to 'stable'); otherwise the
answer is skipped.  The non-modelled `catch` branch only fires when
`setRemoteDescription` itself rejects. -/
def handleAnswer (peers : List (String × Peer)) (answer fromUserId : String) :
    List (String × Peer) × List PeerAct :=
  match peers.lookup fromUserId with
  | none => (peers, [])
  | some p =>
    if p.signalingState = .haveLocalOffer then
      (alSet peers fromUserId { p with signalingState := .stable },
        [.setRemoteAnswer fromUserId answer])
    else
      (peers, [])

structure ClientState where
  peers : List (String × Peer)
  remoteStreams : List String
  deriving DecidableEq

/-- `closePeerConnection(userId)`: when a connection is held, close it,
delete it from the ref and dispatch REMOVE_REMOTE_STREAM. -/
def closePeerConnection (st : ClientState) (userId : String) :
    ClientState × List PeerAct :=
  match st.peers.lookup userId with
  | none => (st, [])
  | some _ =>
    ({ peers := st.peers.filter (fun kv => kv.1 ≠ userId),
       remoteStreams := st.remoteStreams.filter (fun u => u ≠ userId) },
      [.closePeer userId])

/-- First loop of the participants effect: for each id of
`participantIds` not in the `currentPeerIds` snapshot, create a peer
connection and invoke `handleNegotiationNeeded` on it. -/
def connectLoop (currentRoom : String) (currentPeerIds : List String) :
    List String → List (String × Peer) → List (String × Peer) × List PeerAct
  | [], peers => (peers, [])
  | pid :: rest, peers =>
    if pid ∈ currentPeerIds then
      connectLoop currentRoom currentPeerIds rest peers
    else
      let c := createPeerConnection peers pid
      let n := handleNegotiationNeeded c.2.1 (some currentRoom) pid
      let peers2 := alSet c.1 pid n.1
      let r := connectLoop currentRoom currentPeerIds rest peers2
      (r.1, c.2.2 ++ n.2 ++ r.2)

/-- Second loop of the participants effect: every id of the
`currentPeerIds` snapshot that is not in `participantIds` is closed. -/
def closeLoop (participantIds : List String) :
    List String → ClientState → ClientState × List PeerAct
  | [], st => (st, [])
  | pid :: rest, st =>
    if pid ∈ participantIds then
      closeLoop participantIds rest st
    else
      let c := closePeerConnection st pid
      let r := closeLoop participantIds rest c.1
      (r.1, c.2 ++ r.2)

/-- The body of the `useEffect([participants, currentRoom, user])` hook,
for the case where both `currentRoom` and `user` are set.  `participants`
is the list of participant user ids (`participants.map(p => p._id)`). -/
def participantsEffect (currentRoom selfId : String) (participants : List String)
    (st : ClientState) : ClientState × List PeerAct :=
  let currentPeerIds := st.peers.map Prod.fst
  let participantIds := participants.filter (fun pid => pid ≠ selfId)
  let c := connectLoop currentRoom currentPeerIds participantIds st.peers
  let st1 : ClientState := { peers := c.1, remoteStreams := st.remoteStreams }
  let d := closeLoop participantIds currentPeerIds st1
  (d.1, c.2 ++ d.2)

inductive ConnectionState
  | new
  | connecting
  | connected
  | disconnected
  | failed
  | closed
  deriving DecidableEq, BEq

/-- The `onconnectionstatechange` hook installed by
`createPeerConnection`: dispatch SET_CONNECTION_STATE (recording the new
state under the peer's user id) and call `restartIce()` exactly when the
new connection state is 'failed'.  The returned boolean is whether
`restartIce()` was invoked. -/
def onConnectionStateChange (connectionStates : List (String × ConnectionState))
    (userId : String) (newState : ConnectionState) :
    List (String × ConnectionState) × Bool :=
  (alSet connectionStates userId newState, newState == ConnectionState.failed)

end WebRTCCtx

namespace SocketHandler

/-!
Embedding of backend/socket/socketHandler.js.

`connectedUsers` (a JS `Map` from socket id to `\x7b user, currentRoomId \x7d`)
is an association list; the Socket.IO per-socket room set is tracked in
`socketRooms` (Socket.IO stores rooms in a `Set`, so joining is
idempotent).  Database side effects (`Room.findOne`, `User.findByIdAndUpdate`)
are abstracted: the existence check of `join_room` becomes the boolean
`roomExists`.  Emitted Socket.IO events are returned as a list.
-/

structure ServerUser where
  _id : String
  username : String
  deriving DecidableEq

structure Conn where
  user : ServerUser
  currentRoomId : Option String
  deriving DecidableEq

inductive Ev
  | error (sid msg : String)
  | roomJoined (sid roomId : String)
  | userJoined (roomId userId : String)
  | userLeft (roomId userId : String)
  | relay (room name data fromUserId : String)
  deriving DecidableEq

structure SrvState where
  connectedUsers : List (String × Conn)
  socketRooms : List (String × List String)
  deriving DecidableEq

def initState : SrvState := { connectedUsers := [], socketRooms := [] }

/-- Socket.IO `socket.join(r)` on the socket's room set (a `Set`). -/
def joinSet (rooms : List String) (r : String) : List String :=
  if r ∈ rooms then rooms else rooms ++ [r]

/-- Socket.IO `socket.leave(r)`. -/
def leaveSet (rooms : List String) (r : String) : List String :=
  rooms.filter (fun x => x ≠ r)

def roomsOf (s : SrvState) (sid : String) : List String :=
  (s.socketRooms.lookup sid).getD []

/-- The connection prologue of `handleSocketConnection`:
`connectedUsers.set(socket.id, \x7b user \x7d); socket.join(userId);`. -/
def handleSocketConnection (s : SrvState) (sid : String) (u : ServerUser) : SrvState :=
  { connectedUsers := alSet s.connectedUsers sid { user := u, currentRoomId := none },
    socketRooms := alSet s.socketRooms sid (joinSet (roomsOf s sid) u._id) }

/-- `handleLeaveRoom(socket, io, roomId)`: a no-op unless the registry
records exactly this room for the socket; otherwise leave the Socket.IO
room, clear `currentRoomId` and emit `user_left` to the room. -/
def handleLeaveRoom (s : SrvState) (sid roomId : String) : SrvState × List Ev :=
  match s.connectedUsers.lookup sid with
  | none => (s, [])
  | some conn =>
    if conn.currentRoomId = some roomId then
      ({ connectedUsers := alSet s.connectedUsers sid { conn with currentRoomId := none },
         socketRooms := alSet s.socketRooms sid (leaveSet (roomsOf s sid) roomId) },
       [Ev.userLeft roomId conn.user._id])
    else
      (s, [])

/-- The `join_room` handler.  `roomExists` abstracts
`await Room.findOne(\x7b roomId \x7d)` being non-null.  When the room is
missing the handler returns after emitting the error.  When the registry
has no entry for the socket (unreachable for a connected socket),
`socket.join(roomId)` has already run when `connection.currentRoomId =
roomId` throws, and the catch emits the internal error. -/
def handleJoinRoom (s : SrvState) (sid roomId : String) (roomExists : Bool) :
    SrvState × List Ev :=
  if roomExists then
    match s.connectedUsers.lookup sid with
    | none =>
      ({ s with socketRooms := alSet s.socketRooms sid (joinSet (roomsOf s sid) roomId) },
       [Ev.error sid "Internal server error while joining room"])
    | some conn =>
      let prev :=
        match conn.currentRoomId with
        | some r => handleLeaveRoom s sid r
        | none => (s, [])
      let s1 := prev.1
      let conn1 := (s1.connectedUsers.lookup sid).getD conn
      let s2 : SrvState :=
        { connectedUsers := alSet s1.connectedUsers sid { conn1 with currentRoomId := some roomId },
          socketRooms := alSet s1.socketRooms sid (joinSet (roomsOf s1 sid) roomId) }
      (s2, prev.2 ++ [Ev.roomJoined sid roomId, Ev.userJoined roomId conn.user._id])
  else
    (s, [Ev.error sid "Room not found"])

/-- The `disconnect` handler: leave the current room if any, then delete
the registry entry.  (`User.findByIdAndUpdate` is a database effect, not
modelled.) -/
def handleDisconnect (s : SrvState) (sid : String) : SrvState × List Ev :=
  match s.connectedUsers.lookup sid with
  | none => (s, [])
  | some conn =>
    let prev :=
      match conn.currentRoomId with
      | some r => handleLeaveRoom s sid r
      | none => (s, [])
    ({ prev.1 with connectedUsers := prev.1.connectedUsers.filter (fun kv => kv.1 ≠ sid) },
     prev.2)

/-- The client payload of a WebRTC signaling event.  `data` is the
opaque offer / answer / candidate JSON; the client also sends a `roomId`
field which the handler's destructuring never reads. -/
structure SignalPayload where
  data : String
  targetUserId : String
  roomId : Option String
  deriving DecidableEq

/-- `io.to(room).emit(name, \x7b ..., fromUserId \x7d)`. -/
def ioToEmit (room name data fromUserId : String) : Ev :=
  Ev.relay room name data fromUserId

/-- `socket.on('webrtc_offer', ...)` handler body. -/
def onWebrtcOffer (senderUserId : String) (p : SignalPayload) : Ev :=
  ioToEmit p.targetUserId "webrtc_offer" p.data senderUserId

/-- `socket.on('webrtc_answer', ...)` handler body. -/
def onWebrtcAnswer (senderUserId : String) (p : SignalPayload) : Ev :=
  ioToEmit p.targetUserId "webrtc_answer" p.data senderUserId

/-- `socket.on('webrtc_ice_candidate', ...)` handler body. -/
def onWebrtcIceCandidate (senderUserId : String) (p : SignalPayload) : Ev :=
  ioToEmit p.targetUserId "webrtc_ice_candidate" p.data senderUserId

/-- The socket ids an `io.to(room).emit(...)` reaches: every socket whose
room set contains `room`. -/
def deliverTo (s : SrvState) (room : String) : List String :=
  (s.socketRooms.filter (fun kv => room ∈ kv.2)).map Prod.fst

/-- States reachable from the empty server state.  Socket ids are fresh at
connect time (Socket.IO never reuses a socket id), which is what the two
`none` side conditions of `connect` encode. -/
inductive Reachable : SrvState → Prop
  | init : Reachable initState
  | connect {s : SrvState} {sid : String} {u : ServerUser} :
      Reachable s → s.connectedUsers.lookup sid = none →
      s.socketRooms.lookup sid = none →
      Reachable (handleSocketConnection s sid u)
  | joinRoom {s : SrvState} {sid roomId : String} {roomExists : Bool} :
      Reachable s → Reachable (handleJoinRoom s sid roomId roomExists).1
  | leaveRoom {s : SrvState} {sid roomId : String} :
      Reachable s → Reachable (handleLeaveRoom s sid roomId).1
  | disconnect {s : SrvState} {sid : String} :
      Reachable s → Reachable (handleDisconnect s sid).1

/-- Registry/room correspondence: every Socket.IO room a registered socket
occupies is either the room named after its own user id or the (unique)
recorded `currentRoomId`, and its room set has no duplicates. -/
def RoomInv (s : SrvState) : Prop :=
  ∀ sid conn, s.connectedUsers.lookup sid = some conn →
    (∀ r ∈ roomsOf s sid, r = conn.user._id ∨ conn.currentRoomId = some r) ∧
      (roomsOf s sid).Nodup

end SocketHandler

-- ===================================================================
-- Theorems
-- ===================================================================

theorem alSet_lookup_self {α : Type} (m : List (String × α)) (k : String) (v : α) :
    (alSet m k v).lookup k = some v := by
  induction m with
  | nil => simp [alSet, List.lookup]
  | cons hd tl ih =>
    obtain ⟨k', v'⟩ := hd
    by_cases h : k' = k
    · simp [alSet, h, List.lookup]
    · simp only [alSet, if_neg h, List.lookup]
      have : (k == k') = false := by
        simp [beq_eq_false_iff_ne]
        exact fun hk => h hk.symm
      simp [this, ih]

theorem alSet_lookup_ne {α : Type} (m : List (String × α)) (k k' : String) (v : α)
    (h : k' ≠ k) : (alSet m k v).lookup k' = m.lookup k' := by
  induction m with
  | nil =>
    have : (k' == k) = false := by simpa [beq_eq_false_iff_ne] using h
    simp [alSet, List.lookup, this]
  | cons hd tl ih =>
    obtain ⟨ka, va⟩ := hd
    by_cases hk : ka = k
    · subst hk
      have : (k' == ka) = false := by simpa [beq_eq_false_iff_ne] using h
      simp [alSet, List.lookup, this]
    · simp only [alSet, if_neg hk, List.lookup]
      by_cases he : k' = ka
      · subst he; simp [List.lookup]
      · have : (k' == ka) = false := by simpa [beq_eq_false_iff_ne] using he
        simp [this, ih]

/-- The pair just written by `alSet` is a member of the resulting list. -/
theorem alSet_mem_self {α : Type} (m : List (String × α)) (k : String) (v : α) :
    (k, v) ∈ alSet m k v := by
  induction m with
  | nil => simp [alSet]
  | cons hd tl ih =>
    obtain ⟨k', v'⟩ := hd
    by_cases h : k' = k
    · simp [alSet, h]
    · simp only [alSet, if_neg h, List.mem_cons]
      exact Or.inr ih

namespace SocketHandler

theorem self_mem_joinSet (l : List String) (r : String) : r ∈ joinSet l r := by
  unfold joinSet
  by_cases h : r ∈ l <;> simp [h]

theorem mem_joinSet {l : List String} {r x : String} (h : x ∈ joinSet l r) :
    x ∈ l ∨ x = r := by
  unfold joinSet at h
  by_cases hm : r ∈ l
  · simp [hm] at h; exact Or.inl h
  · simp [hm] at h; exact h

theorem nodup_joinSet {l : List String} (r : String) (h : l.Nodup) :
    (joinSet l r).Nodup := by
  unfold joinSet
  by_cases hm : r ∈ l
  · simp [hm, h]
  · simp [hm, List.nodup_append, h]

theorem mem_leaveSet {l : List String} {r x : String} (h : x ∈ leaveSet l r) :
    x ∈ l ∧ x ≠ r := by
  unfold leaveSet at h
  simpa using h

theorem nodup_leaveSet {l : List String} (r : String) (h : l.Nodup) :
    (leaveSet l r).Nodup :=
  h.filter _

end SocketHandler

namespace RoomModel

theorem findActive_none_activeCount (l : List Participant) (u : String)
    (h : findActive l u = none) :
    (l.filter (fun p => p.user == u && p.isActive)).length = 0 := by
  rw [List.length_eq_zero]
  rw [List.filter_eq_nil_iff]
  intro p hp
  have := List.find?_eq_none.mp h p hp
  simpa using this

theorem activeCount_addParticipant (r : RoomDoc) (u u' : String) (n : Nat)
    (h : activeCount r u ≤ 1) : activeCount (addParticipant r u' n) u ≤ 1 := by
  unfold addParticipant
  cases hf : findActive r.participants u' with
  | some p => simpa [hf] using h
  | none =>
    simp only [hf]
    unfold activeCount at *
    simp only [List.filter_append, List.length_append]
    by_cases hu : u' = u
    · subst hu
      have h0 := findActive_none_activeCount r.participants u' hf
      simp [h0]
    · have : ((u' : String) == u) = false := by simpa [beq_eq_false_iff_ne] using hu
      simp [this]
      exact h

theorem activeCount_deactivateFirst (l : List Participant) (u u' : String) (n : Nat) :
    ((deactivateFirst l u' n).filter (fun p => p.user == u && p.isActive)).length ≤
      (l.filter (fun p => p.user == u && p.isActive)).length := by
  induction l with
  | nil => simp [deactivateFirst]
  | cons p rest ih =>
    by_cases hp : (p.user == u' && p.isActive) = true
    · simp only [deactivateFirst, if_pos hp]
      by_cases hq : (p.user == u && p.isActive) = true
      · simp [List.filter_cons, hq]
      · simp only [List.filter_cons]
        have : (p.user == u && false) = false := by simp
        simp [hq, this]
    · simp only [deactivateFirst, if_neg hp]
      by_cases hq : (p.user == u && p.isActive) = true
      · simp only [List.filter_cons, hq, if_pos, List.length_cons]
        omega
      · simp only [List.filter_cons, hq]
        simpa using ih

theorem activeCount_removeParticipant (r : RoomDoc) (u u' : String) (n : Nat)
    (h : activeCount r u ≤ 1) : activeCount (removeParticipant r u' n) u ≤ 1 := by
  unfold removeParticipant activeCount at *
  exact le_trans (activeCount_deactivateFirst r.participants u u' n) h

theorem activeCount_applyRoomOp (r : RoomDoc) (op : RoomOp) (u : String)
    (h : activeCount r u ≤ 1) : activeCount (applyRoomOp r op) u ≤ 1 := by
  cases op with
  | add u' n => exact activeCount_addParticipant r u u' n h
  | remove u' n => exact activeCount_removeParticipant r u u' n h

end RoomModel

-- ===================================================================
-- Claim theorems
-- ===================================================================

/-- C10: For every User document, the JSON serialization produced by
`toJSON` never contains the `password` field, regardless of the other
field values of the document. -/
theorem user_toJSON_never_contains_password (u : UserModel.UserDoc) :
    "password" ∉ (UserModel.toJSON u).map Prod.fst := by
  simp [UserModel.toJSON, UserModel.deleteField, UserModel.toObject]

/-- C9: Every Room document holds at most one active participant entry per
user: `addParticipant` appends a new active entry only when the user has no
existing active one, `removeParticipant` deactivates the active entry, and
no sequence of `addParticipant` / `removeParticipant` calls starting from a
fresh room produces two simultaneously active entries for the same user. -/
theorem room_at_most_one_active_entry_per_user
    (ops : List RoomModel.RoomOp) (u : String) :
    RoomModel.activeCount (RoomModel.runRoomOps ops) u ≤ 1 := by
  suffices h : ∀ r : RoomModel.RoomDoc, (∀ v, RoomModel.activeCount r v ≤ 1) →
      ∀ v, RoomModel.activeCount (ops.foldl RoomModel.applyRoomOp r) v ≤ 1 by
    refine h RoomModel.emptyRoom (fun v => ?_) u
    simp [RoomModel.activeCount, RoomModel.emptyRoom]
  induction ops with
  | nil => exact fun r h v => h v
  | cons op rest ih =>
    intro r h v
    exact ih (RoomModel.applyRoomOp r op)
      (fun w => RoomModel.activeCount_applyRoomOp r op w (h w)) v

/-- C5: the `onconnectionstatechange` hook records the new connection state
in the `connectionStates` map under the peer's user id (leaving other
entries untouched), and invokes `restartIce()` exactly when the new state
is 'failed'. -/
theorem connection_state_hook_records_and_restarts
    (m : List (String × WebRTCCtx.ConnectionState)) (uid uid' : String)
    (st : WebRTCCtx.ConnectionState) :
    ((WebRTCCtx.onConnectionStateChange m uid st).1.lookup uid = some st) ∧
      (uid' ≠ uid →
        (WebRTCCtx.onConnectionStateChange m uid st).1.lookup uid' = m.lookup uid') ∧
      ((WebRTCCtx.onConnectionStateChange m uid st).2 = true ↔
        st = WebRTCCtx.ConnectionState.failed) := by
  refine ⟨alSet_lookup_self m uid st, fun h => alSet_lookup_ne m uid uid' st h, ?_⟩
  cases st <;> simp [WebRTCCtx.onConnectionStateChange] <;> rfl

/-- Witness for C5 at a concrete map, user and state. -/
theorem connection_state_hook_records_and_restarts_witness :
    ((WebRTCCtx.onConnectionStateChange [] "a" WebRTCCtx.ConnectionState.failed).1.lookup "b" =
        List.lookup "b" []) ∧
      (WebRTCCtx.onConnectionStateChange [] "a" WebRTCCtx.ConnectionState.failed).2 = true := by
  have h := connection_state_hook_records_and_restarts [] "a" "b"
    WebRTCCtx.ConnectionState.failed
  exact ⟨h.2.1 (by decide), h.2.2.mpr rfl⟩

/-- C8: when no room with the given roomId exists, the `join_room` handler
emits 'error' with message 'Room not found' and leaves the entire server
state unchanged: no registry update, no room membership change, and no
other event. -/
theorem join_room_missing_room_is_atomic (s : SocketHandler.SrvState)
    (sid roomId : String) :
    SocketHandler.handleJoinRoom s sid roomId false =
      (s, [SocketHandler.Ev.error sid "Room not found"]) := by
  simp [SocketHandler.handleJoinRoom]

/-- C1: every webrtc_offer / webrtc_answer / webrtc_ice_candidate event
from an authenticated socket is re-emitted under the same event name to
the Socket.IO room named by the payload's `targetUserId`, carrying the
original payload data plus `fromUserId` set to the sender's user id; the
handlers are insensitive to the payload's `roomId` field; and at connect
time every socket joins the room named after its own user id, so an emit
keyed by a user id reaches that user's socket. -/
theorem webrtc_signals_relayed_by_target_user_id :
    (∀ (senderUserId : String) (p : SocketHandler.SignalPayload),
        SocketHandler.onWebrtcOffer senderUserId p =
          SocketHandler.Ev.relay p.targetUserId "webrtc_offer" p.data senderUserId ∧
        SocketHandler.onWebrtcAnswer senderUserId p =
          SocketHandler.Ev.relay p.targetUserId "webrtc_answer" p.data senderUserId ∧
        SocketHandler.onWebrtcIceCandidate senderUserId p =
          SocketHandler.Ev.relay p.targetUserId "webrtc_ice_candidate" p.data senderUserId) ∧
    (∀ (senderUserId : String) (p : SocketHandler.SignalPayload) (rid : Option String),
        SocketHandler.onWebrtcOffer senderUserId { p with roomId := rid } =
          SocketHandler.onWebrtcOffer senderUserId p ∧
        SocketHandler.onWebrtcAnswer senderUserId { p with roomId := rid } =
          SocketHandler.onWebrtcAnswer senderUserId p ∧
        SocketHandler.onWebrtcIceCandidate senderUserId { p with roomId := rid } =
          SocketHandler.onWebrtcIceCandidate senderUserId p) ∧
    (∀ (s : SocketHandler.SrvState) (sid : String) (u : SocketHandler.ServerUser),
        sid ∈ SocketHandler.deliverTo (SocketHandler.handleSocketConnection s sid u) u._id) := by
  refine ⟨fun u p => ⟨rfl, rfl, rfl⟩, fun u p rid => ⟨rfl, rfl, rfl⟩, fun s sid u => ?_⟩
  unfold SocketHandler.deliverTo SocketHandler.handleSocketConnection
  apply List.mem_map.mpr
  refine ⟨(sid, SocketHandler.joinSet (SocketHandler.roomsOf s sid) u._id), ?_, rfl⟩
  apply List.mem_filter.mpr
  refine ⟨alSet_mem_self _ _ _, ?_⟩
  simpa using SocketHandler.self_mem_joinSet (SocketHandler.roomsOf s sid) u._id

/-- Every mock translation text is the bracketed string
`[<language> translation of: <text>]` for some language label. -/
theorem mockTranslation_text_is_bracketed (text tgt src : String) :
    ∃ lang, (Translation.mockTranslation text tgt src).text =
      "[" ++ lang ++ " translation of: " ++ text ++ "]" := by
  unfold Translation.mockTranslation Translation.mockTranslations
  by_cases h1 : tgt = "ta"
  · subst h1; exact ⟨"Tamil", rfl⟩
  by_cases h2 : tgt = "hi"
  · subst h2; exact ⟨"Hindi", rfl⟩
  by_cases h3 : tgt = "es"
  · subst h3; exact ⟨"Spanish", rfl⟩
  by_cases h4 : tgt = "fr"
  · subst h4; exact ⟨"French", rfl⟩
  by_cases h5 : tgt = "de"
  · subst h5; exact ⟨"German", rfl⟩
  by_cases h6 : tgt = "zh"
  · subst h6; exact ⟨"Chinese", rfl⟩
  by_cases h7 : tgt = "ar"
  · subst h7; exact ⟨"Arabic", rfl⟩
  refine ⟨tgt, ?_⟩
  have e1 : (tgt == "ta") = false := by simpa [beq_eq_false_iff_ne] using h1
  have e2 : (tgt == "hi") = false := by simpa [beq_eq_false_iff_ne] using h2
  have e3 : (tgt == "es") = false := by simpa [beq_eq_false_iff_ne] using h3
  have e4 : (tgt == "fr") = false := by simpa [beq_eq_false_iff_ne] using h4
  have e5 : (tgt == "de") = false := by simpa [beq_eq_false_iff_ne] using h5
  have e6 : (tgt == "zh") = false := by simpa [beq_eq_false_iff_ne] using h6
  have e7 : (tgt == "ar") = false := by simpa [beq_eq_false_iff_ne] using h7
  simp [List.lookup, e1, e2, e3, e4, e5, e6, e7]

/-- C6: `translateText` returns null on empty / whitespace-only text;
returns the original text with confidence 1.0 (and touches no provider)
when source equals target; and falls back to the mock translation — whose
text is the bracketed `[<language> translation of: <text>]` string and
whose provider is 'mock' — when no API key is configured or the chosen
provider call throws. -/
theorem translateText_null_identity_and_mock_fallback
    (text targetLanguage sourceLanguage : String) (hasO hasG : Bool)
    (oc gc : Except Unit String) :
    (Translation.isBlank text = true →
      Translation.translateText text targetLanguage sourceLanguage hasO hasG oc gc = none) ∧
    (Translation.isBlank text = false → sourceLanguage = targetLanguage →
      Translation.translateText text targetLanguage sourceLanguage hasO hasG oc gc =
        some { text := text, confidence := 100, sourceLanguage := sourceLanguage,
               targetLanguage := targetLanguage, provider := none }) ∧
    (Translation.isBlank text = false → sourceLanguage ≠ targetLanguage →
      ((hasO = false ∧ hasG = false) ∨ (hasO = true ∧ oc = .error ()) ∨
        (hasO = false ∧ hasG = true ∧ gc = .error ())) →
      Translation.translateText text targetLanguage sourceLanguage hasO hasG oc gc =
          some (Translation.mockTranslation text targetLanguage sourceLanguage) ∧
        (Translation.mockTranslation text targetLanguage sourceLanguage).provider =
          some "mock" ∧
        ∃ lang, (Translation.mockTranslation text targetLanguage sourceLanguage).text =
          "[" ++ lang ++ " translation of: " ++ text ++ "]") := by
  refine ⟨fun hb => ?_, fun hb hs => ?_, fun hb hs hcase => ?_⟩
  · simp [Translation.translateText, hb]
  · simp [Translation.translateText, hb, hs]
  · refine ⟨?_, rfl, mockTranslation_text_is_bracketed text targetLanguage sourceLanguage⟩
    rcases hcase with ⟨ho, hg⟩ | ⟨ho, hoc⟩ | ⟨ho, hg, hgc⟩
    · simp [Translation.translateText, hb, hs, ho, hg]
    · simp [Translation.translateText, hb, hs, ho, hoc, Translation.translateWithOpenAI,
        Except.map]
    · simp [Translation.translateText, hb, hs, ho, hg, hgc, Translation.translateWithGoogle,
        Except.map]

/-- Witness for C6: concrete evaluations exercising all three conjuncts. -/
theorem translateText_null_identity_and_mock_fallback_witness :
    (Translation.translateText "  " "ta" "en" false false (.error ()) (.error ()) = none) ∧
    (Translation.translateText "Hi" "en" "en" false false (.error ()) (.error ()) =
      some { text := "Hi", confidence := 100, sourceLanguage := "en",
             targetLanguage := "en", provider := none }) ∧
    (Translation.translateText "Hello" "ta" "en" false false (.error ()) (.error ()) =
      some (Translation.mockTranslation "Hello" "ta" "en")) := by
  refine ⟨?_, ?_, ?_⟩
  · exact (translateText_null_identity_and_mock_fallback "  " "ta" "en" false false
      (.error ()) (.error ())).1 (by decide)
  · exact (translateText_null_identity_and_mock_fallback "Hi" "en" "en" false false
      (.error ()) (.error ())).2.1 (by decide) rfl
  · exact ((translateText_null_identity_and_mock_fallback "Hello" "ta" "en" false false
      (.error ()) (.error ())).2.2 (by decide) (by decide) (Or.inl ⟨rfl, rfl⟩)).1

/-- C4: a received answer is applied via `setRemoteDescription` exactly
when the corresponding peer connection exists and its signaling state is
'have-local-offer' (otherwise `handleAnswer` changes nothing), and the
negotiation-needed handler creates an offer exactly when the signaling
state is 'stable', sending it only when a current room is set (otherwise
negotiation is skipped entirely). -/
theorem client_signaling_state_guards
    (peers : List (String × WebRTCCtx.Peer)) (answer fromUserId : String)
    (p : WebRTCCtx.Peer) (currentRoom : Option String) (userId : String) :
    ((∃ uid ans, WebRTCCtx.PeerAct.setRemoteAnswer uid ans ∈
        (WebRTCCtx.handleAnswer peers answer fromUserId).2) ↔
      (∃ q, peers.lookup fromUserId = some q ∧
        q.signalingState = WebRTCCtx.SignalingState.haveLocalOffer)) ∧
    (∀ q, peers.lookup fromUserId = some q →
      q.signalingState ≠ WebRTCCtx.SignalingState.haveLocalOffer →
      WebRTCCtx.handleAnswer peers answer fromUserId = (peers, [])) ∧
    ((WebRTCCtx.PeerAct.createOffer userId ∈
        (WebRTCCtx.handleNegotiationNeeded p currentRoom userId).2) ↔
      p.signalingState = WebRTCCtx.SignalingState.stable) ∧
    (∀ rid, WebRTCCtx.PeerAct.sendOffer rid userId ∈
        (WebRTCCtx.handleNegotiationNeeded p currentRoom userId).2 →
      p.signalingState = WebRTCCtx.SignalingState.stable ∧ currentRoom = some rid) ∧
    (p.signalingState ≠ WebRTCCtx.SignalingState.stable →
      WebRTCCtx.handleNegotiationNeeded p currentRoom userId = (p, [])) := by
  refine ⟨?_, ?_, ?_, ?_, ?_⟩
  · constructor
    · rintro ⟨uid, ans, hmem⟩
      unfold WebRTCCtx.handleAnswer at hmem
      cases hq : peers.lookup fromUserId with
      | none => rw [hq] at hmem; simp at hmem
      | some q =>
        by_cases hs : q.signalingState = WebRTCCtx.SignalingState.haveLocalOffer
        · exact ⟨q, rfl, hs⟩
        · rw [hq] at hmem; simp [hs] at hmem
    · rintro ⟨q, hq, hs⟩
      exact ⟨fromUserId, answer, by simp [WebRTCCtx.handleAnswer, hq, hs]⟩
  · intro q hq hs
    simp [WebRTCCtx.handleAnswer, hq, hs]
  · constructor
    · intro hmem
      by_cases hs : p.signalingState = WebRTCCtx.SignalingState.stable
      · exact hs
      · simp [WebRTCCtx.handleNegotiationNeeded, hs] at hmem
    · intro hs
      cases currentRoom <;> simp [WebRTCCtx.handleNegotiationNeeded, hs]
  · intro rid hmem
    by_cases hs : p.signalingState = WebRTCCtx.SignalingState.stable
    · refine ⟨hs, ?_⟩
      cases hr : currentRoom with
      | none => simp [WebRTCCtx.handleNegotiationNeeded, hs, hr] at hmem
      | some r =>
        simp [WebRTCCtx.handleNegotiationNeeded, hs, hr] at hmem
        simp [hmem]
    · simp [WebRTCCtx.handleNegotiationNeeded, hs] at hmem
  · intro hs
    simp [WebRTCCtx.handleNegotiationNeeded, hs]

/-- Witness for C4 at concrete peers and states. -/
theorem client_signaling_state_guards_witness :
    (∃ uid ans, WebRTCCtx.PeerAct.setRemoteAnswer uid ans ∈
      (WebRTCCtx.handleAnswer [("u2", { signalingState := .haveLocalOffer })] "a" "u2").2) ∧
    (WebRTCCtx.handleAnswer [("u2", { signalingState := .stable })] "a" "u2" =
      ([("u2", { signalingState := .stable })], [])) ∧
    (WebRTCCtx.handleNegotiationNeeded { signalingState := .haveRemoteOffer } (some "R") "u2" =
      ({ signalingState := .haveRemoteOffer }, [])) := by
  refine ⟨?_, ?_, ?_⟩
  · exact (client_signaling_state_guards [("u2", { signalingState := .haveLocalOffer })]
      "a" "u2" { signalingState := .stable } none "u2").1.mpr
      ⟨{ signalingState := .haveLocalOffer }, by decide, rfl⟩
  · exact (client_signaling_state_guards [("u2", { signalingState := .stable })]
      "a" "u2" { signalingState := .stable } none "u2").2.1
      { signalingState := .stable } (by decide) (by decide)
  · exact (client_signaling_state_guards [] "a" "u2"
      { signalingState := .haveRemoteOffer } (some "R") "u2").2.2.2.2 (by decide)

/-- The per-word gesture selection of `processTextToSigns`: exact table
key, else the first multi-word phrase of the table contained in the whole
input, else the default gesture. -/
theorem gestureFor_cases (inputText w : String) :
    (SignAvatar.SIGN_GESTURES.lookup w = some (SignAvatar.gestureFor inputText w).1 ∧
      (SignAvatar.gestureFor inputText w).2 = w) ∨
    (SignAvatar.SIGN_GESTURES.lookup w = none ∧
      ((SignAvatar.gestureFor inputText w).2, (SignAvatar.gestureFor inputText w).1) ∈
        SignAvatar.SIGN_GESTURES ∧
      (SignAvatar.gestureFor inputText w).2.toList.contains ' ' = true ∧
      SignAvatar.strIncludes inputText (SignAvatar.gestureFor inputText w).2 = true) ∨
    (SignAvatar.SIGN_GESTURES.lookup w = none ∧
      SignAvatar.gestureFor inputText w = ("🤲", w) ∧
      ∀ pg ∈ SignAvatar.SIGN_GESTURES, pg.1.toList.contains ' ' = true →
        SignAvatar.strIncludes inputText pg.1 = false) := by
  unfold SignAvatar.gestureFor
  cases hl : SignAvatar.SIGN_GESTURES.lookup w with
  | some g => exact Or.inl ⟨by simp, by simp⟩
  | none =>
    cases hf : SignAvatar.SIGN_GESTURES.find?
        (fun pg => pg.1.toList.contains ' ' && SignAvatar.strIncludes inputText pg.1) with
    | some pg =>
      refine Or.inr (Or.inl ⟨rfl, ?_, ?_, ?_⟩)
      · simpa using List.mem_of_find?_eq_some hf
      · have := List.find?_some hf
        simp only [Bool.and_eq_true] at this
        simpa using this.1
      · have := List.find?_some hf
        simp only [Bool.and_eq_true] at this
        simpa using this.2
    | none =>
      refine Or.inr (Or.inr ⟨rfl, by simp, ?_⟩)
      intro pg hmem hsp
      have := List.find?_eq_none.mp hf pg hmem
      simp only [Bool.and_eq_true, not_and] at this
      simpa using this hsp

/-- C7: for every input text, `processTextToSigns` produces exactly one
gesture per whitespace-separated word (a `Forall₂` between the gesture
list and the word list), and each gesture is the table emoji for the exact
word, else the emoji of a multi-word table phrase contained in the full
input text, else the default gesture '🤲'. -/
theorem processTextToSigns_one_gesture_per_word (inputText : String) :
    List.Forall₂
      (fun (g : String × String) (w : String) =>
        (SignAvatar.SIGN_GESTURES.lookup w = some g.1 ∧ g.2 = w) ∨
        (SignAvatar.SIGN_GESTURES.lookup w = none ∧
          (g.2, g.1) ∈ SignAvatar.SIGN_GESTURES ∧
          g.2.toList.contains ' ' = true ∧
          SignAvatar.strIncludes inputText g.2 = true) ∨
        (SignAvatar.SIGN_GESTURES.lookup w = none ∧ g = ("🤲", w) ∧
          ∀ pg ∈ SignAvatar.SIGN_GESTURES, pg.1.toList.contains ' ' = true →
            SignAvatar.strIncludes inputText pg.1 = false))
      (SignAvatar.processTextToSigns inputText) (SignAvatar.splitWords inputText) := by
  unfold SignAvatar.processTextToSigns
  rw [List.forall₂_map_left_iff]
  rw [List.forall₂_same]
  intro w _
  exact gestureFor_cases inputText w

theorem lookup_eq_none_of_not_mem_keys {α : Type} (m : List (String × α)) (k : String)
    (h : k ∉ m.map Prod.fst) : m.lookup k = none := by
  induction m with
  | nil => rfl
  | cons kv rest ih =>
    obtain ⟨k', v'⟩ := kv
    simp only [List.map_cons, List.mem_cons, not_or] at h
    have : (k == k') = false := by simpa [beq_eq_false_iff_ne] using h.1
    simp [List.lookup, this, ih h.2]

theorem lookup_isSome_of_mem_keys {α : Type} (m : List (String × α)) (k : String)
    (h : k ∈ m.map Prod.fst) : (m.lookup k).isSome := by
  induction m with
  | nil => simp at h
  | cons kv rest ih =>
    obtain ⟨k', v'⟩ := kv
    by_cases hk : k = k'
    · subst hk
      simp [List.lookup]
    · have hb : (k == k') = false := by simpa [beq_eq_false_iff_ne] using hk
      simp only [List.map_cons, List.mem_cons] at h
      rcases h with h | h
      · exact absurd h hk
      · simp only [List.lookup, hb]
        exact ih h

/-- Every pair of `alSet m k v` is a pair of `m` or the new pair itself. -/
theorem mem_alSet_elim {α : Type} {m : List (String × α)} {k : String} {v : α}
    {kv : String × α} (h : kv ∈ alSet m k v) : kv ∈ m ∨ kv = (k, v) := by
  induction m with
  | nil => simpa [alSet] using h
  | cons hd rest ih =>
    obtain ⟨ka, va⟩ := hd
    simp only [alSet] at h
    split at h
    · rcases List.mem_cons.mp h with h | h
      · exact Or.inr h
      · exact Or.inl (List.mem_cons_of_mem _ h)
    · rcases List.mem_cons.mp h with h | h
      · exact Or.inl (by simp [h])
      · rcases ih h with h' | h'
        · exact Or.inl (List.mem_cons_of_mem _ h')
        · exact Or.inr h'

/-- A pair whose key differs from `k` survives `alSet m k v`. -/
theorem mem_alSet_of_mem_ne {α : Type} {m : List (String × α)} {k : String} {v : α}
    {kv : String × α} (h : kv ∈ m) (hne : kv.1 ≠ k) : kv ∈ alSet m k v := by
  induction m with
  | nil => simp at h
  | cons hd rest ih =>
    obtain ⟨ka, va⟩ := hd
    simp only [alSet]
    split
    · rename_i hk
      rcases List.mem_cons.mp h with h | h
      · exact absurd (by simp [h, hk]) hne
      · exact List.mem_cons_of_mem _ h
    · rcases List.mem_cons.mp h with h | h
      · exact List.mem_cons.mpr (Or.inl h)
      · exact List.mem_cons_of_mem _ (ih h)

theorem self_mem_keys_alSet {α : Type} (m : List (String × α)) (k : String) (v : α) :
    k ∈ (alSet m k v).map Prod.fst := by
  have := alSet_mem_self m k v
  exact List.mem_map.mpr ⟨(k, v), this, rfl⟩

theorem mem_keys_alSet_of_mem {α : Type} (m : List (String × α)) (k k' : String) (v : α)
    (h : k' ∈ m.map Prod.fst) : k' ∈ (alSet m k v).map Prod.fst := by
  by_cases hk : k' = k
  · subst hk
    exact self_mem_keys_alSet m k' v
  · rcases List.mem_map.mp h with ⟨kv, hkv, hfst⟩
    exact List.mem_map.mpr ⟨kv, mem_alSet_of_mem_ne hkv (by simpa [hfst] using hk), hfst⟩

theorem mem_keys_of_mem_keys_alSet {α : Type} {m : List (String × α)} {k k' : String}
    {v : α} (h : k' ∈ (alSet m k v).map Prod.fst) : k' ∈ m.map Prod.fst ∨ k' = k := by
  rcases List.mem_map.mp h with ⟨kv, hkv, hfst⟩
  rcases mem_alSet_elim hkv with h' | h'
  · exact Or.inl (List.mem_map.mpr ⟨kv, h', hfst⟩)
  · subst hfst
    exact Or.inr (by simp [h'])

theorem mem_keys_filter_key {α : Type} (m : List (String × α)) (k x : String)
    (hx : x ∈ m.map Prod.fst) (hne : x ≠ k) :
    x ∈ (m.filter (fun kv => kv.1 ≠ k)).map Prod.fst := by
  rcases List.mem_map.mp hx with ⟨kv, hmem, hfst⟩
  refine List.mem_map.mpr ⟨kv, List.mem_filter.mpr ⟨hmem, ?_⟩, hfst⟩
  simpa [hfst] using hne

theorem keys_filter_subset {α : Type} (m : List (String × α)) (p : String × α → Bool)
    (x : String) (hx : x ∈ (m.filter p).map Prod.fst) : x ∈ m.map Prod.fst := by
  rcases List.mem_map.mp hx with ⟨kv, hmem, hfst⟩
  exact List.mem_map.mpr ⟨kv, List.mem_filter.mp hmem |>.1, hfst⟩

namespace WebRTCCtx

theorem connectLoop_keys_mono (cr : String) (snap todo : List String)
    (peers : List (String × Peer)) (x : String) (hx : x ∈ peers.map Prod.fst) :
    x ∈ (connectLoop cr snap todo peers).1.map Prod.fst := by
  induction todo generalizing peers with
  | nil => simpa [connectLoop] using hx
  | cons q rest ih =>
    by_cases hq : q ∈ snap
    · simpa [connectLoop, hq] using ih peers hx
    · simp only [connectLoop, if_neg hq]
      apply ih
      apply mem_keys_alSet_of_mem
      unfold createPeerConnection
      cases hl : peers.lookup q with
      | some p => exact hx
      | none => exact mem_keys_alSet_of_mem peers q x _ hx

theorem connectLoop_creates (cr : String) (snap todo : List String)
    (peers : List (String × Peer)) (pid : String)
    (hin : pid ∈ todo) (hsnap : pid ∉ snap) (hkeys : pid ∉ peers.map Prod.fst) :
    pid ∈ (connectLoop cr snap todo peers).1.map Prod.fst ∧
    PeerAct.createPeer pid ∈ (connectLoop cr snap todo peers).2 ∧
    PeerAct.createOffer pid ∈ (connectLoop cr snap todo peers).2 ∧
    PeerAct.sendOffer cr pid ∈ (connectLoop cr snap todo peers).2 := by
  induction todo generalizing peers with
  | nil => simp at hin
  | cons q rest ih =>
    by_cases heq : q = pid
    · subst heq
      have hl : peers.lookup q = none := lookup_eq_none_of_not_mem_keys peers q hkeys
      simp only [connectLoop, if_neg hsnap, createPeerConnection, hl,
        handleNegotiationNeeded, if_pos rfl]
      refine ⟨?_, by simp, by simp, by simp⟩
      exact connectLoop_keys_mono cr snap rest _ q
        (self_mem_keys_alSet _ q _)
    · have hrest : pid ∈ rest := by
        rcases List.mem_cons.mp hin with h | h
        · exact absurd h.symm heq
        · exact h
      by_cases hq : q ∈ snap
      · simpa [connectLoop, hq] using ih peers hrest hkeys
      · simp only [connectLoop, if_neg hq]
        have hkeys2 : pid ∉ (alSet (createPeerConnection peers q).1 q
            (handleNegotiationNeeded (createPeerConnection peers q).2.1 (some cr) q).1).map
              Prod.fst := by
          intro hmem
          rcases mem_keys_of_mem_keys_alSet hmem with h | h
          · unfold createPeerConnection at h
            cases hl : peers.lookup q with
            | some p => rw [hl] at h; exact hkeys h
            | none =>
              rw [hl] at h
              rcases mem_keys_of_mem_keys_alSet h with h' | h'
              · exact hkeys h'
              · exact heq h'.symm
          · exact heq h.symm
        have hres := ih _ hrest hkeys2
        refine ⟨hres.1, ?_, ?_, ?_⟩
        · simp only [List.mem_append]
          exact Or.inr hres.2.1
        · simp only [List.mem_append]
          exact Or.inr hres.2.2.1
        · simp only [List.mem_append]
          exact Or.inr hres.2.2.2

theorem closeLoop_keys_subset (partIds snap : List String) (st : ClientState) (x : String)
    (hx : x ∈ (closeLoop partIds snap st).1.peers.map Prod.fst) :
    x ∈ st.peers.map Prod.fst := by
  induction snap generalizing st with
  | nil => simpa [closeLoop] using hx
  | cons q rest ih =>
    by_cases hq : q ∈ partIds
    · rw [closeLoop, if_pos hq] at hx
      exact ih st hx
    · rw [closeLoop, if_neg hq] at hx
      have h1 := ih _ hx
      unfold closePeerConnection at h1
      cases hl : st.peers.lookup q with
      | none => rw [hl] at h1; exact h1
      | some p =>
        rw [hl] at h1
        exact keys_filter_subset st.peers _ x h1

theorem closeLoop_streams_subset (partIds snap : List String) (st : ClientState)
    (x : String) (hx : x ∈ (closeLoop partIds snap st).1.remoteStreams) :
    x ∈ st.remoteStreams := by
  induction snap generalizing st with
  | nil => simpa [closeLoop] using hx
  | cons q rest ih =>
    by_cases hq : q ∈ partIds
    · rw [closeLoop, if_pos hq] at hx
      exact ih st hx
    · rw [closeLoop, if_neg hq] at hx
      have h1 := ih _ hx
      unfold closePeerConnection at h1
      cases hl : st.peers.lookup q with
      | none => rw [hl] at h1; exact h1
      | some p =>
        rw [hl] at h1
        exact (List.mem_filter.mp h1).1

theorem closeLoop_keeps (partIds snap : List String) (st : ClientState) (pid : String)
    (hp : pid ∈ partIds) (hk : pid ∈ st.peers.map Prod.fst) :
    pid ∈ (closeLoop partIds snap st).1.peers.map Prod.fst := by
  induction snap generalizing st with
  | nil => simpa [closeLoop] using hk
  | cons q rest ih =>
    by_cases hq : q ∈ partIds
    · rw [closeLoop, if_pos hq]
      exact ih st hk
    · rw [closeLoop, if_neg hq]
      apply ih
      have hne : pid ≠ q := fun h => hq (h ▸ hp)
      unfold closePeerConnection
      cases hl : st.peers.lookup q with
      | none => exact hk
      | some p => exact mem_keys_filter_key st.peers q pid hk hne

theorem closeLoop_removes (partIds snap : List String) (st : ClientState) (pid : String)
    (hin : pid ∈ snap) (hnp : pid ∉ partIds) (hk : pid ∈ st.peers.map Prod.fst) :
    pid ∉ (closeLoop partIds snap st).1.peers.map Prod.fst ∧
    pid ∉ (closeLoop partIds snap st).1.remoteStreams ∧
    PeerAct.closePeer pid ∈ (closeLoop partIds snap st).2 := by
  induction snap generalizing st with
  | nil => simp at hin
  | cons q rest ih =>
    by_cases heq : q = pid
    · subst heq
      rw [closeLoop, if_neg hnp]
      have hsome := lookup_isSome_of_mem_keys st.peers q hk
      cases hl : st.peers.lookup q with
      | none => rw [hl] at hsome; simp at hsome
      | some p =>
        simp only [closePeerConnection, hl]
        refine ⟨?_, ?_, by simp⟩
        · intro hmem
          have := closeLoop_keys_subset partIds rest _ q hmem
          simp only at this
          rcases List.mem_map.mp this with ⟨kv, hkv, hfst⟩
          have := (List.mem_filter.mp hkv).2
          simp [hfst] at this
        · intro hmem
          have := closeLoop_streams_subset partIds rest _ q hmem
          simp only at this
          have := (List.mem_filter.mp this).2
          simp at this
    · have hrest : pid ∈ rest := by
        rcases List.mem_cons.mp hin with h | h
        · exact absurd h.symm heq
        · exact h
      by_cases hq : q ∈ partIds
      · rw [closeLoop, if_pos hq]
        exact ih st hrest hk
      · rw [closeLoop, if_neg hq]
        have hk2 : pid ∈ (closePeerConnection st q).1.peers.map Prod.fst := by
          unfold closePeerConnection
          cases hl : st.peers.lookup q with
          | none => exact hk
          | some p => exact mem_keys_filter_key st.peers q pid hk (fun h => heq h.symm)
        have hres := ih _ hrest hk2
        exact ⟨hres.1, hres.2.1, by simp only [List.mem_append]; exact Or.inr hres.2.2⟩

end WebRTCCtx

/-- C3: whenever the participants effect runs with a room and local user
set, a peer connection is created — and offer negotiation initiated, with
the offer sent to the room's signalling — for every participant id that is
not the local user's and has no existing connection; and every held
connection whose user id is no longer in the participant list is closed,
removed from the connection map, and its remote stream dropped. -/
theorem participants_effect_creates_and_tears_down
    (currentRoom selfId : String) (participants : List String)
    (st : WebRTCCtx.ClientState) :
    (∀ pid, pid ∈ participants → pid ≠ selfId → pid ∉ st.peers.map Prod.fst →
      pid ∈ (WebRTCCtx.participantsEffect currentRoom selfId participants
        st).1.peers.map Prod.fst ∧
      WebRTCCtx.PeerAct.createPeer pid ∈
        (WebRTCCtx.participantsEffect currentRoom selfId participants st).2 ∧
      WebRTCCtx.PeerAct.createOffer pid ∈
        (WebRTCCtx.participantsEffect currentRoom selfId participants st).2 ∧
      WebRTCCtx.PeerAct.sendOffer currentRoom pid ∈
        (WebRTCCtx.participantsEffect currentRoom selfId participants st).2) ∧
    (∀ pid, pid ∈ st.peers.map Prod.fst → pid ∉ participants →
      pid ∉ (WebRTCCtx.participantsEffect currentRoom selfId participants
        st).1.peers.map Prod.fst ∧
      pid ∉ (WebRTCCtx.participantsEffect currentRoom selfId participants
        st).1.remoteStreams ∧
      WebRTCCtx.PeerAct.closePeer pid ∈
        (WebRTCCtx.participantsEffect currentRoom selfId participants st).2) := by
  constructor
  · intro pid hp hne hnk
    have hpart : pid ∈ participants.filter (fun x => x ≠ selfId) :=
      List.mem_filter.mpr ⟨hp, by simpa using hne⟩
    have hc := WebRTCCtx.connectLoop_creates currentRoom (st.peers.map Prod.fst)
      (participants.filter (fun x => x ≠ selfId)) st.peers pid hpart hnk hnk
    refine ⟨?_, ?_, ?_, ?_⟩
    · simp only [WebRTCCtx.participantsEffect]
      exact WebRTCCtx.closeLoop_keeps _ _ _ pid hpart hc.1
    · simp only [WebRTCCtx.participantsEffect, List.mem_append]
      exact Or.inl hc.2.1
    · simp only [WebRTCCtx.participantsEffect, List.mem_append]
      exact Or.inl hc.2.2.1
    · simp only [WebRTCCtx.participantsEffect, List.mem_append]
      exact Or.inl hc.2.2.2
  · intro pid hk hnp
    have hnp2 : pid ∉ participants.filter (fun x => x ≠ selfId) := fun h =>
      hnp (List.mem_filter.mp h).1
    have hk1 : pid ∈ (WebRTCCtx.connectLoop currentRoom (st.peers.map Prod.fst)
        (participants.filter (fun x => x ≠ selfId)) st.peers).1.map Prod.fst :=
      WebRTCCtx.connectLoop_keys_mono currentRoom _ _ st.peers pid hk
    have hr := WebRTCCtx.closeLoop_removes (participants.filter (fun x => x ≠ selfId))
      (st.peers.map Prod.fst)
      { peers := (WebRTCCtx.connectLoop currentRoom (st.peers.map Prod.fst)
          (participants.filter (fun x => x ≠ selfId)) st.peers).1,
        remoteStreams := st.remoteStreams }
      pid hk hnp2 hk1
    refine ⟨?_, ?_, ?_⟩
    · simp only [WebRTCCtx.participantsEffect]
      exact hr.1
    · simp only [WebRTCCtx.participantsEffect]
      exact hr.2.1
    · simp only [WebRTCCtx.participantsEffect, List.mem_append]
      exact Or.inr hr.2.2

/-- Witness for C3: one joining participant and one departed participant. -/
theorem participants_effect_creates_and_tears_down_witness :
    WebRTCCtx.PeerAct.createPeer "u3" ∈
      (WebRTCCtx.participantsEffect "R" "u1" ["u3"]
        { peers := [("u2", { signalingState := WebRTCCtx.SignalingState.stable })],
          remoteStreams := ["u2"] }).2 ∧
    WebRTCCtx.PeerAct.sendOffer "R" "u3" ∈
      (WebRTCCtx.participantsEffect "R" "u1" ["u3"]
        { peers := [("u2", { signalingState := WebRTCCtx.SignalingState.stable })],
          remoteStreams := ["u2"] }).2 ∧
    WebRTCCtx.PeerAct.closePeer "u2" ∈
      (WebRTCCtx.participantsEffect "R" "u1" ["u3"]
        { peers := [("u2", { signalingState := WebRTCCtx.SignalingState.stable })],
          remoteStreams := ["u2"] }).2 ∧
    "u2" ∉ (WebRTCCtx.participantsEffect "R" "u1" ["u3"]
        { peers := [("u2", { signalingState := WebRTCCtx.SignalingState.stable })],
          remoteStreams := ["u2"] }).1.peers.map Prod.fst ∧
    "u2" ∉ (WebRTCCtx.participantsEffect "R" "u1" ["u3"]
        { peers := [("u2", { signalingState := WebRTCCtx.SignalingState.stable })],
          remoteStreams := ["u2"] }).1.remoteStreams := by
  have h := participants_effect_creates_and_tears_down "R" "u1" ["u3"]
    { peers := [("u2", { signalingState := WebRTCCtx.SignalingState.stable })],
      remoteStreams := ["u2"] }
  have h1 := h.1 "u3" (by decide) (by decide) (by decide)
  have h2 := h.2 "u2" (by decide) (by decide)
  exact ⟨h1.2.1, h1.2.2.2, h2.2.2, h2.1, h2.2.1⟩

theorem filter_key_lookup_self {α : Type} (m : List (String × α)) (k : String) :
    (m.filter (fun kv => kv.1 ≠ k)).lookup k = none := by
  induction m with
  | nil => rfl
  | cons kv rest ih =>
    obtain ⟨ka, va⟩ := kv
    by_cases hk : ka = k
    · rw [List.filter_cons_of_neg (by simp [hk])]
      exact ih
    · rw [List.filter_cons_of_pos (by simp [hk])]
      have hb : (k == ka) = false := by
        simp [beq_eq_false_iff_ne]
        exact fun he => hk he.symm
      simp only [List.lookup, hb]
      exact ih

theorem filter_key_lookup_ne {α : Type} (m : List (String × α)) (k k' : String)
    (h : k' ≠ k) : (m.filter (fun kv => kv.1 ≠ k)).lookup k' = m.lookup k' := by
  induction m with
  | nil => rfl
  | cons kv rest ih =>
    obtain ⟨ka, va⟩ := kv
    by_cases hk : ka = k
    · subst hk
      rw [List.filter_cons_of_neg (by simp)]
      rw [ih]
      have hb : (k' == ka) = false := by simpa [beq_eq_false_iff_ne] using h
      simp only [List.lookup, hb]
    · rw [List.filter_cons_of_pos (by simp [hk])]
      by_cases he : k' = ka
      · subst he
        simp [List.lookup]
      · have hb : (k' == ka) = false := by simpa [beq_eq_false_iff_ne] using he
        simp only [List.lookup, hb]
        exact ih

theorem length_le_one_of_nodup_all_eq {α : Type} {l : List α} {c : α}
    (hn : l.Nodup) (h : ∀ x ∈ l, x = c) : l.length ≤ 1 := by
  match l with
  | [] => simp
  | [x] => simp
  | x :: y :: t =>
    exfalso
    have hx := h x (by simp)
    have hy := h y (by simp)
    rw [List.nodup_cons] at hn
    exact hn.1 (by simp [hx, hy])

namespace SocketHandler

theorem roomsOf_mk_alSet_self (cu : List (String × Conn))
    (m : List (String × List String)) (sid : String) (v : List String) :
    roomsOf ⟨cu, alSet m sid v⟩ sid = v := by
  simp [roomsOf, alSet_lookup_self]

theorem roomsOf_mk_alSet_ne (cu : List (String × Conn))
    (m : List (String × List String)) (sid sid' : String) (v : List String)
    (h : sid' ≠ sid) :
    roomsOf ⟨cu, alSet m sid v⟩ sid' = (m.lookup sid').getD [] := by
  simp [roomsOf, alSet_lookup_ne _ _ _ _ h]

theorem roomInv_connect (s : SrvState) (sid : String) (u : ServerUser)
    (h : RoomInv s) (hc : s.connectedUsers.lookup sid = none)
    (hr : s.socketRooms.lookup sid = none) :
    RoomInv (handleSocketConnection s sid u) := by
  intro sid' conn' hc'
  unfold handleSocketConnection at hc' ⊢
  by_cases hs : sid' = sid
  · subst hs
    rw [alSet_lookup_self] at hc'
    injection hc' with hc'
    subst hc'
    rw [roomsOf_mk_alSet_self]
    have hempty : roomsOf s sid' = [] := by simp [roomsOf, hr]
    rw [hempty]
    constructor
    · intro r hrm
      rcases mem_joinSet hrm with hrm | hrm
      · simp at hrm
      · exact Or.inl hrm
    · exact nodup_joinSet _ (by simp)
  · rw [alSet_lookup_ne _ _ _ _ hs] at hc'
    have hprev := h sid' conn' hc'
    rw [roomsOf_mk_alSet_ne _ _ _ _ _ hs]
    exact hprev

theorem roomInv_leave (s : SrvState) (sid rid : String) (h : RoomInv s) :
    RoomInv (handleLeaveRoom s sid rid).1 := by
  cases hc : s.connectedUsers.lookup sid with
  | none =>
    have hstate : (handleLeaveRoom s sid rid).1 = s := by
      simp [handleLeaveRoom, hc]
    rw [hstate]; exact h
  | some conn =>
    by_cases hcur : conn.currentRoomId = some rid
    · have hstate : (handleLeaveRoom s sid rid).1 =
          ⟨alSet s.connectedUsers sid { conn with currentRoomId := none },
            alSet s.socketRooms sid (leaveSet (roomsOf s sid) rid)⟩ := by
        simp [handleLeaveRoom, hc, hcur]
      rw [hstate]
      intro sid' conn' hc'
      by_cases hs : sid' = sid
      · subst hs
        rw [show (⟨alSet s.connectedUsers sid' { conn with currentRoomId := none },
            alSet s.socketRooms sid' (leaveSet (roomsOf s sid') rid)⟩ :
              SrvState).connectedUsers =
            alSet s.connectedUsers sid' { conn with currentRoomId := none } from rfl,
          alSet_lookup_self] at hc'
        injection hc' with hc'
        subst hc'
        rw [roomsOf_mk_alSet_self]
        constructor
        · intro r hrm
          have hm := mem_leaveSet hrm
          rcases (h sid' conn hc).1 r hm.1 with h' | h'
          · exact Or.inl h'
          · rw [hcur] at h'
            injection h' with h'
            exact absurd h'.symm hm.2
        · exact nodup_leaveSet _ (h sid' conn hc).2
      · rw [show (⟨alSet s.connectedUsers sid { conn with currentRoomId := none },
            alSet s.socketRooms sid (leaveSet (roomsOf s sid) rid)⟩ :
              SrvState).connectedUsers =
            alSet s.connectedUsers sid { conn with currentRoomId := none } from rfl,
          alSet_lookup_ne _ _ _ _ hs] at hc'
        have hprev := h sid' conn' hc'
        rw [roomsOf_mk_alSet_ne _ _ _ _ _ hs]
        exact hprev
    · have hstate : (handleLeaveRoom s sid rid).1 = s := by
        simp [handleLeaveRoom, hc, hcur]
      rw [hstate]; exact h

theorem roomInv_join (s : SrvState) (sid rid : String) (ex : Bool) (h : RoomInv s) :
    RoomInv (handleJoinRoom s sid rid ex).1 := by
  cases ex with
  | false =>
    have hstate : (handleJoinRoom s sid rid false).1 = s := by
      simp [handleJoinRoom]
    rw [hstate]; exact h
  | true =>
    cases hc : s.connectedUsers.lookup sid with
    | none =>
      have hstate : (handleJoinRoom s sid rid true).1 =
          ⟨s.connectedUsers, alSet s.socketRooms sid (joinSet (roomsOf s sid) rid)⟩ := by
        simp [handleJoinRoom, hc]
      rw [hstate]
      intro sid' conn' hc'
      have hs : sid' ≠ sid := by
        intro he
        subst he
        rw [show (⟨s.connectedUsers,
            alSet s.socketRooms sid' (joinSet (roomsOf s sid') rid)⟩ :
              SrvState).connectedUsers = s.connectedUsers from rfl, hc] at hc'
        cases hc'
      have hprev := h sid' conn' hc'
      rw [roomsOf_mk_alSet_ne _ _ _ _ _ hs]
      exact hprev
    | some conn =>
      cases hcur : conn.currentRoomId with
      | some r =>
        have hleave_cu : (handleLeaveRoom s sid r).1.connectedUsers =
            alSet s.connectedUsers sid { conn with currentRoomId := none } := by
          simp [handleLeaveRoom, hc, hcur]
        have hleave_sr : (handleLeaveRoom s sid r).1.socketRooms =
            alSet s.socketRooms sid (leaveSet (roomsOf s sid) r) := by
          simp [handleLeaveRoom, hc, hcur]
        have hrooms1 : roomsOf (handleLeaveRoom s sid r).1 sid =
            leaveSet (roomsOf s sid) r := by
          simp [roomsOf, hleave_sr, alSet_lookup_self]
        have hstate : (handleJoinRoom s sid rid true).1 =
            ⟨alSet (handleLeaveRoom s sid r).1.connectedUsers sid
                { user := conn.user, currentRoomId := some rid },
              alSet (handleLeaveRoom s sid r).1.socketRooms sid
                (joinSet (roomsOf (handleLeaveRoom s sid r).1 sid) rid)⟩ := by
          simp [handleJoinRoom, hc, hcur, hleave_cu, alSet_lookup_self]
        rw [hstate]
        intro sid' conn' hc'
        by_cases hs : sid' = sid
        · subst hs
          rw [show (⟨alSet (handleLeaveRoom s sid' r).1.connectedUsers sid'
                { user := conn.user, currentRoomId := some rid },
              alSet (handleLeaveRoom s sid' r).1.socketRooms sid'
                (joinSet (roomsOf (handleLeaveRoom s sid' r).1 sid') rid)⟩ :
                  SrvState).connectedUsers =
              alSet (handleLeaveRoom s sid' r).1.connectedUsers sid'
                { user := conn.user, currentRoomId := some rid } from rfl,
            alSet_lookup_self] at hc'
          injection hc' with hc'
          subst hc'
          rw [roomsOf_mk_alSet_self, hrooms1]
          constructor
          · intro x hxm
            rcases mem_joinSet hxm with hxm | hxm
            · have hm := mem_leaveSet hxm
              rcases (h sid' conn hc).1 x hm.1 with h' | h'
              · exact Or.inl h'
              · rw [hcur] at h'
                injection h' with h'
                exact absurd h'.symm hm.2
            · exact Or.inr (by simp [hxm])
          · exact nodup_joinSet _ (nodup_leaveSet _ (h sid' conn hc).2)
        · rw [show (⟨alSet (handleLeaveRoom s sid r).1.connectedUsers sid
                { user := conn.user, currentRoomId := some rid },
              alSet (handleLeaveRoom s sid r).1.socketRooms sid
                (joinSet (roomsOf (handleLeaveRoom s sid r).1 sid) rid)⟩ :
                  SrvState).connectedUsers =
              alSet (handleLeaveRoom s sid r).1.connectedUsers sid
                { user := conn.user, currentRoomId := some rid } from rfl,
            alSet_lookup_ne _ _ _ _ hs, hleave_cu,
            alSet_lookup_ne _ _ _ _ hs] at hc'
          have hprev := h sid' conn' hc'
          rw [roomsOf_mk_alSet_ne _ _ _ _ _ hs]
          have : ((handleLeaveRoom s sid r).1.socketRooms.lookup sid').getD [] =
              roomsOf s sid' := by
            rw [hleave_sr, alSet_lookup_ne _ _ _ _ hs]
            rfl
          rw [this]
          exact hprev
      | none =>
        have hstate : (handleJoinRoom s sid rid true).1 =
            ⟨alSet s.connectedUsers sid { user := conn.user, currentRoomId := some rid },
              alSet s.socketRooms sid (joinSet (roomsOf s sid) rid)⟩ := by
          simp [handleJoinRoom, hc, hcur]
        rw [hstate]
        intro sid' conn' hc'
        by_cases hs : sid' = sid
        · subst hs
          rw [show (⟨alSet s.connectedUsers sid'
                { user := conn.user, currentRoomId := some rid },
              alSet s.socketRooms sid' (joinSet (roomsOf s sid') rid)⟩ :
                  SrvState).connectedUsers =
              alSet s.connectedUsers sid'
                { user := conn.user, currentRoomId := some rid } from rfl,
            alSet_lookup_self] at hc'
          injection hc' with hc'
          subst hc'
          rw [roomsOf_mk_alSet_self]
          constructor
          · intro x hxm
            rcases mem_joinSet hxm with hxm | hxm
            · rcases (h sid' conn hc).1 x hxm with h' | h'
              · exact Or.inl h'
              · rw [hcur] at h'
                cases h'
            · exact Or.inr (by simp [hxm])
          · exact nodup_joinSet _ (h sid' conn hc).2
        · rw [show (⟨alSet s.connectedUsers sid
                { user := conn.user, currentRoomId := some rid },
              alSet s.socketRooms sid (joinSet (roomsOf s sid) rid)⟩ :
                  SrvState).connectedUsers =
              alSet s.connectedUsers sid
                { user := conn.user, currentRoomId := some rid } from rfl,
            alSet_lookup_ne _ _ _ _ hs] at hc'
          have hprev := h sid' conn' hc'
          rw [roomsOf_mk_alSet_ne _ _ _ _ _ hs]
          exact hprev

theorem roomInv_disconnect (s : SrvState) (sid : String) (h : RoomInv s) :
    RoomInv (handleDisconnect s sid).1 := by
  cases hc : s.connectedUsers.lookup sid with
  | none =>
    have hstate : (handleDisconnect s sid).1 = s := by
      simp [handleDisconnect, hc]
    rw [hstate]; exact h
  | some conn =>
    cases hcur : conn.currentRoomId with
    | some r =>
      have hstate : (handleDisconnect s sid).1 =
          ⟨(handleLeaveRoom s sid r).1.connectedUsers.filter (fun kv => kv.1 ≠ sid),
            (handleLeaveRoom s sid r).1.socketRooms⟩ := by
        simp [handleDisconnect, hc, hcur]
      rw [hstate]
      have h1 := roomInv_leave s sid r h
      intro sid' conn' hc'
      by_cases hs : sid' = sid
      · subst hs
        rw [show (⟨(handleLeaveRoom s sid' r).1.connectedUsers.filter
              (fun kv => kv.1 ≠ sid'),
            (handleLeaveRoom s sid' r).1.socketRooms⟩ : SrvState).connectedUsers =
            (handleLeaveRoom s sid' r).1.connectedUsers.filter
              (fun kv => kv.1 ≠ sid') from rfl,
          filter_key_lookup_self] at hc'
        cases hc'
      · rw [show (⟨(handleLeaveRoom s sid r).1.connectedUsers.filter
              (fun kv => kv.1 ≠ sid),
            (handleLeaveRoom s sid r).1.socketRooms⟩ : SrvState).connectedUsers =
            (handleLeaveRoom s sid r).1.connectedUsers.filter
              (fun kv => kv.1 ≠ sid) from rfl,
          filter_key_lookup_ne _ _ _ hs] at hc'
        exact h1 sid' conn' hc'
    | none =>
      have hstate : (handleDisconnect s sid).1 =
          ⟨s.connectedUsers.filter (fun kv => kv.1 ≠ sid), s.socketRooms⟩ := by
        simp [handleDisconnect, hc, hcur]
      rw [hstate]
      intro sid' conn' hc'
      by_cases hs : sid' = sid
      · subst hs
        rw [show (⟨s.connectedUsers.filter (fun kv => kv.1 ≠ sid'),
            s.socketRooms⟩ : SrvState).connectedUsers =
            s.connectedUsers.filter (fun kv => kv.1 ≠ sid') from rfl,
          filter_key_lookup_self] at hc'
        cases hc'
      · rw [show (⟨s.connectedUsers.filter (fun kv => kv.1 ≠ sid),
            s.socketRooms⟩ : SrvState).connectedUsers =
            s.connectedUsers.filter (fun kv => kv.1 ≠ sid) from rfl,
          filter_key_lookup_ne _ _ _ hs] at hc'
        exact h sid' conn' hc'

theorem reachable_roomInv (s : SrvState) (h : Reachable s) : RoomInv s := by
  induction h with
  | init =>
    intro sid conn hc
    cases hc
  | connect hr hcu hsr ih => exact roomInv_connect _ _ _ ih hcu hsr
  | joinRoom hr ih => exact roomInv_join _ _ _ _ ih
  | leaveRoom hr ih => exact roomInv_leave _ _ _ ih
  | disconnect hr ih => exact roomInv_disconnect _ _ ih

end SocketHandler

/-- C2: in every reachable server state, each registered socket occupies
at most one signaling room: every Socket.IO room the socket is in other
than its own user-id room is the (unique) recorded `currentRoomId`, so the
socket's non-user-id rooms number at most one; and a successful
`join_room` issued while a previous room is recorded first emits
`user_left` to that room before emitting `room_joined` / `user_joined` for
the new one. -/
theorem relay_registry_single_signaling_room :
    (∀ s : SocketHandler.SrvState, SocketHandler.Reachable s →
      ∀ sid conn, s.connectedUsers.lookup sid = some conn →
        (∀ r ∈ SocketHandler.roomsOf s sid,
          r = conn.user._id ∨ conn.currentRoomId = some r) ∧
        ((SocketHandler.roomsOf s sid).filter
          (fun r => r ≠ conn.user._id)).length ≤ 1) ∧
    (∀ (s : SocketHandler.SrvState) (sid prevRoom newRoom : String)
        (conn : SocketHandler.Conn),
      s.connectedUsers.lookup sid = some conn →
      conn.currentRoomId = some prevRoom →
      (SocketHandler.handleJoinRoom s sid newRoom true).2 =
        [SocketHandler.Ev.userLeft prevRoom conn.user._id,
          SocketHandler.Ev.roomJoined sid newRoom,
          SocketHandler.Ev.userJoined newRoom conn.user._id]) := by
  constructor
  · intro s hreach sid conn hc
    have hinv := SocketHandler.reachable_roomInv s hreach sid conn hc
    refine ⟨hinv.1, ?_⟩
    cases hcur : conn.currentRoomId with
    | none =>
      have hnil : (SocketHandler.roomsOf s sid).filter
          (fun r => r ≠ conn.user._id) = [] := by
        rw [List.filter_eq_nil_iff]
        intro r hr
        rcases hinv.1 r hr with h' | h'
        · simp [h']
        · rw [hcur] at h'
          cases h'
      rw [hnil]
      simp
    | some c =>
      apply length_le_one_of_nodup_all_eq (hinv.2.filter _) (c := c)
      intro x hx
      have hx' := List.mem_filter.mp hx
      rcases hinv.1 x hx'.1 with h' | h'
      · exact absurd h' (by simpa using hx'.2)
      · rw [hcur] at h'
        injection h' with h'
        exact h'.symm
  · intro s sid prevRoom newRoom conn hc hcur
    simp [SocketHandler.handleJoinRoom, SocketHandler.handleLeaveRoom, hc, hcur]

/-- Witness for C2 at a concrete reachable state: one socket that
connected and then joined room R; its filtered room list and a
re-join to R2 emitting user_left first. -/
theorem relay_registry_single_signaling_room_witness :
    ((SocketHandler.roomsOf
        (SocketHandler.handleJoinRoom
          (SocketHandler.handleSocketConnection SocketHandler.initState "s1"
            { _id := "u1", username := "alice" }) "s1" "R" true).1 "s1").filter
      (fun r => r ≠ "u1")).length ≤ 1 ∧
    (SocketHandler.handleJoinRoom
        (SocketHandler.handleJoinRoom
          (SocketHandler.handleSocketConnection SocketHandler.initState "s1"
            { _id := "u1", username := "alice" }) "s1" "R" true).1 "s1" "R2" true).2 =
      [SocketHandler.Ev.userLeft "R" "u1", SocketHandler.Ev.roomJoined "s1" "R2",
        SocketHandler.Ev.userJoined "R2" "u1"] := by
  have hreach : SocketHandler.Reachable
      (SocketHandler.handleJoinRoom
        (SocketHandler.handleSocketConnection SocketHandler.initState "s1"
          { _id := "u1", username := "alice" }) "s1" "R" true).1 :=
    SocketHandler.Reachable.joinRoom
      (SocketHandler.Reachable.connect SocketHandler.Reachable.init rfl rfl)
  constructor
  · exact (relay_registry_single_signaling_room.1 _ hreach "s1"
      { user := { _id := "u1", username := "alice" }, currentRoomId := some "R" }
      (by decide)).2
  · exact relay_registry_single_signaling_room.2 _ "s1" "R" "R2"
      { user := { _id := "u1", username := "alice" }, currentRoomId := some "R" }
      (by decide) rfl

/-- Witness for C1: a concrete relayed offer and a connected socket
reachable through its own user-id room. -/
theorem webrtc_signals_relayed_by_target_user_id_witness :
    SocketHandler.onWebrtcOffer "u1"
        { data := "sdp", targetUserId := "u2", roomId := some "R" } =
      SocketHandler.Ev.relay "u2" "webrtc_offer" "sdp" "u1" ∧
    "s1" ∈ SocketHandler.deliverTo
      (SocketHandler.handleSocketConnection SocketHandler.initState "s1"
        { _id := "u1", username := "alice" }) "u1" :=
  ⟨(webrtc_signals_relayed_by_target_user_id.1 "u1"
      { data := "sdp", targetUserId := "u2", roomId := some "R" }).1,
    webrtc_signals_relayed_by_target_user_id.2.2 SocketHandler.initState "s1"
      { _id := "u1", username := "alice" }⟩

/-- Witness for C7 at a concrete input text. -/
theorem processTextToSigns_one_gesture_per_word_witness :
    List.Forall₂
      (fun (g : String × String) (w : String) =>
        (SignAvatar.SIGN_GESTURES.lookup w = some g.1 ∧ g.2 = w) ∨
        (SignAvatar.SIGN_GESTURES.lookup w = none ∧
          (g.2, g.1) ∈ SignAvatar.SIGN_GESTURES ∧
          g.2.toList.contains ' ' = true ∧
          SignAvatar.strIncludes "good morning xyz" g.2 = true) ∨
        (SignAvatar.SIGN_GESTURES.lookup w = none ∧ g = ("🤲", w) ∧
          ∀ pg ∈ SignAvatar.SIGN_GESTURES, pg.1.toList.contains ' ' = true →
            SignAvatar.strIncludes "good morning xyz" pg.1 = false))
      (SignAvatar.processTextToSigns "good morning xyz")
      (SignAvatar.splitWords "good morning xyz") :=
  processTextToSigns_one_gesture_per_word "good morning xyz"

/-- Witness for C8 at a concrete state. -/
theorem join_room_missing_room_is_atomic_witness :
    SocketHandler.handleJoinRoom SocketHandler.initState "s1" "R" false =
      (SocketHandler.initState, [SocketHandler.Ev.error "s1" "Room not found"]) :=
  join_room_missing_room_is_atomic SocketHandler.initState "s1" "R"

/-- Witness for C9: a concrete operation sequence with a repeated join. -/
theorem room_at_most_one_active_entry_per_user_witness :
    RoomModel.activeCount
      (RoomModel.runRoomOps
        [RoomModel.RoomOp.add "u" 1, RoomModel.RoomOp.add "u" 2,
          RoomModel.RoomOp.remove "u" 3, RoomModel.RoomOp.add "u" 4]) "u" ≤ 1 :=
  room_at_most_one_active_entry_per_user
    [RoomModel.RoomOp.add "u" 1, RoomModel.RoomOp.add "u" 2,
      RoomModel.RoomOp.remove "u" 3, RoomModel.RoomOp.add "u" 4] "u"

/-- Witness for C10 at a concrete user document. -/
theorem user_toJSON_never_contains_password_witness :
    "password" ∉ (UserModel.toJSON
      { username := "bob", email := "b@x", password := "secret",
        prefLanguage := "en", prefDeafMode := false, prefAvatarStyle := "default",
        profileFirstName := none, profileLastName := none, isOnline := false,
        lastSeen := 0 }).map Prod.fst :=
  user_toJSON_never_contains_password
    { username := "bob", email := "b@x", password := "secret",
      prefLanguage := "en", prefDeafMode := false, prefAvatarStyle := "default",
      profileFirstName := none, profileLastName := none, isOnline := false,
      lastSeen := 0 }
